import Mathlib

/-! Verification development for the conda `misc` module (file `conda/misc.py`).

The Python code is shallowly embedded: every function under scrutiny is
translated into an executable Lean definition, with the module's external
collaborators (the `install`, `config`, `utils`, `fetch` modules and the
filesystem) abstracted as oracle fields of an environment structure.
String manipulation mirrors Python string methods via structural
recursion over the character list of a `String`, so every definition
evaluates inside the kernel.
-/

set_option autoImplicit false

namespace CondaMisc

/-! Section: Python string primitives

Each helper mirrors one Python `str` operation used by `misc.py`,
computed structurally over `String.data`. -/

/-- Python `s.endswith(pat)`. -/
def pyEndsWith (s pat : String) : Bool :=
  pat.data.isSuffixOf s.data

/-- Python `s.startswith(pat)`. -/
def pyStartsWith (s pat : String) : Bool :=
  pat.data.isPrefixOf s.data

/-- Python `s[:-n]` for `n ≥ 1` (all but the last `n` characters). -/
def pyDropRight (s : String) (n : Nat) : String :=
  ⟨s.data.take (s.data.length - n)⟩

/-- Split a character list at the first occurrence of the pattern `pat`,
returning the part before and the part after (pattern removed), or
`none` when the pattern does not occur.  `pat` is assumed nonempty
(every use in this file passes a nonempty literal). -/
def splitFirst (pat : List Char) : List Char → Option (List Char × List Char)
  | [] => none
  | c :: rest =>
    if pat.isPrefixOf (c :: rest) then some ([], (c :: rest).drop pat.length)
    else match splitFirst pat rest with
         | some (a, b) => some (c :: a, b)
         | none => none

/-- Python `s.partition(':#')` restricted to the two components the code
uses: the part before the first `:#` and the part after it (empty when
the delimiter is absent).  Mirrors line 53 of `misc.py`. -/
def pyPartitionMd5 (s : String) : String × String :=
  match splitFirst [':', '#'] s.data with
  | some (a, b) => (⟨a⟩, ⟨b⟩)
  | none => (s, "")

/-- Split a character list at the last occurrence of the character `c`:
returns the parts before and after that occurrence.  `none` when `c`
does not occur. -/
def rsplitChar (c : Char) : List Char → Option (List Char × List Char)
  | [] => none
  | a :: rest =>
    match rsplitChar c rest with
    | some (x, y) => some (a :: x, y)
    | none => if a = c then some ([], rest) else none

/-- Python `url.rsplit('/', 1)` unpacked into two components
(line 60 of `misc.py`).  Python raises when no slash is present; the
embedding totalises that case as an empty first component (every URL
reaching this point contains a slash). -/
def rsplit1 (s : String) : String × String :=
  match rsplitChar '/' s.data with
  | some (a, b) => (⟨a⟩, ⟨b⟩)
  | none => ("", s)

/-- First-match association-list lookup (the embedding of a Python dict
read `d[k]` / `k in d`). -/
def alookup {β : Type} (k : String) : List (String × β) → Option β
  | [] => none
  | (k', v) :: rest => if k' = k then some v else alookup k rest

/-! Section: Data model of the explicit installer (`explicit`, lines 41-107) -/

/-- One channel-index entry, as consumed by `explicit`: only the
optional `md5` field is read. -/
structure Info where
  md5 : Option String
deriving DecidableEq, Repr

/-- The six operation kinds of an action plan
(`conda.instructions.RM_FETCHED` and friends). -/
inductive OpKind
  | RM_FETCHED | FETCH | RM_EXTRACTED | EXTRACT | UNLINK | LINK
deriving DecidableEq, Repr

/-- An action plan: the `actions` defaultdict of `explicit`, with the
target directory (`actions['PREFIX']`), the fixed kind order
(`actions['op_order']`) and one list of distribution identifiers per
operation kind. -/
structure Plan where
  prefixDir : String
  op_order : List OpKind
  rm_fetched : List String
  fetch : List String
  rm_extracted : List String
  extract : List String
  unlink : List String
  link : List String
deriving DecidableEq, Repr

/-- The operation list a plan holds for one kind. -/
def opList (p : Plan) : OpKind → List String
  | .RM_FETCHED => p.rm_fetched
  | .FETCH => p.fetch
  | .RM_EXTRACTED => p.rm_extracted
  | .EXTRACT => p.extract
  | .UNLINK => p.unlink
  | .LINK => p.link

/-- The operations of a plan in execution order: the concatenation, kind
by kind following `op_order`, of each kind's list, every operation
tagged with its kind. -/
def appliedOps (p : Plan) : List (OpKind × String) :=
  p.op_order.flatMap (fun k => (opList p k).map (fun d => (k, d)))

/-- Oracle environment for `explicit`: the external collaborators of
`misc.py` (modules `config`, `utils`, `install`, `fetch`) plus the
linked-package database of the target directory.  `fetch_data` gives,
for a collection URL (with trailing slash), the channel-index entries
that `fetch_index` would merge into the index for that URL. -/
structure ExpEnv where
  is_url : String → Bool
  isfile : String → Bool
  url_path : String → String
  cached_url : String → Option String
  url_channel : String → String
  is_fetched : String → Option String
  md5_file : String → String
  find_new_location : String → Option String
  fetch_data : String → List (String × Info)
  linked : List String
  name_dist : String → String

/-- Mutable state threaded through the per-line loop of `explicit`: the
plan under construction, the channel index (a dict keyed by filename)
and, as an observation trace, the list of collection URLs passed to
`fetch_index`, in call order. -/
structure ExpState where
  plan : Plan
  index : List (String × Info)
  fetchCalls : List String
deriving DecidableEq, Repr

/-- The sentinel header line skipped by `explicit` (line 49). -/
def sentinel : String := "@EXPLICIT"

/-- The channel tag prepended to the filename (lines 62-71): for a
`file://` parent URL the cache's channel label when one exists,
otherwise the short channel derived from the URL (empty for the
default channel, else the label followed by `::`). -/
def channelTag (env : ExpEnv) (url_p url : String) : String :=
  match (if pyStartsWith url_p "file://" then env.cached_url url else none) with
  | some c => c
  | none =>
    let schannel := env.url_channel url
    if schannel = "defaults" then "" else schannel ++ "::"

/-- Lines 56-59: a non-URL location must exist as a local file (fatal
error otherwise) and is converted to a canonical file URL. -/
def resolveUrl (env : ExpEnv) (url0 : String) : Except String String :=
  if env.is_url url0 then .ok url0
  else if env.isfile url0 then .ok (env.url_path url0)
  else .error ("Error: file not found: " ++ url0)

/-- Lines 74-79: whether a validly cached archive must be discarded
because a supplied checksum mismatches it, and the surviving
`pkg_path` value.  Python truthiness of `pkg_path` and `md5` (nonempty
string) is modelled explicitly. -/
def stalePkgPath (env : ExpEnv) (dist md5 : String) : Bool × Option String :=
  match env.is_fetched dist with
  | none => (false, none)
  | some p =>
    if p ≠ "" ∧ md5 ≠ "" ∧ env.md5_file p ≠ md5 then (true, none) else (false, some p)

/-- Appending the stale cached archive to the removal list
(line 78). -/
def rmStaleState (st : ExpState) (dist : String) : ExpState :=
  { st with plan := { st.plan with rm_fetched := st.plan.rm_fetched ++ [dist] } }

/-- Lines 93-95: the conflicting cached archive scheduled for removal,
when `find_new_location` reports one (Python truthiness: a nonempty
string). -/
def conflictAdds (env : ExpEnv) (dist : String) : List String :=
  match env.find_new_location dist with
  | some c => if c = "" then [] else [c]
  | none => []

/-- Lines 88-92: whether a supplied checksum is fatally rejected
against the index entry: fatal exactly when a checksum was supplied
and the entry carries a different one (a missing index checksum only
warns). -/
def md5Fatal (md5 : String) (info : Info) : Bool :=
  if md5 = "" then false
  else match info.md5 with
    | none => false
    | some m => m ≠ md5

/-- Lines 81-96: verification of one filename against the package
index.  When the filename is not yet in the index, `fetch_index` is
invoked for the parent collection URL and its entries are merged in
(dict update: new entries shadow old ones on lookup).  Then the entry
is looked up (fatal when absent); a supplied checksum is compared when
the entry carries one (mismatch fatal, missing field a mere warning);
finally the conflict removal and the fetch of the distribution are
scheduled. -/
def verifyIndex (env : ExpEnv) (st : ExpState) (url_p fn dist md5 : String) :
    ExpState × Option String :=
  let u0 := url_p ++ "/"
  let fetchNeeded := alookup fn st.index = none
  let index' := if fetchNeeded then env.fetch_data u0 ++ st.index else st.index
  let calls' := if fetchNeeded then st.fetchCalls ++ [u0] else st.fetchCalls
  let st1 : ExpState := { st with index := index', fetchCalls := calls' }
  match alookup fn index' with
  | none => (st1, some ("Error: no package '" ++ fn ++ "' in index"))
  | some info =>
    if md5Fatal md5 info then (st1, some "Error: MD5 in explicit files does not match index")
    else
      ({ st1 with plan := { st1.plan with
            rm_fetched := st1.plan.rm_fetched ++ conflictAdds env dist,
            fetch := st1.plan.fetch ++ [dist] } }, none)

/-- Lines 98-105: unconditional scheduling for one line — removal of
any stale extracted copy, extraction, unlinking of a linked package of
the same name (the Python dict comprehension keyed by name keeps the
last entry per name), and linking of the new distribution. -/
def finishSpec (env : ExpEnv) (st : ExpState) (dist : String) : ExpState :=
  let plan0 := st.plan
  let plan1 := { plan0 with rm_extracted := plan0.rm_extracted ++ [dist],
                            extract := plan0.extract ++ [dist] }
  let name := env.name_dist dist
  let plan2 :=
    match alookup name (env.linked.map (fun d => (env.name_dist d, d))).reverse with
    | some d => { plan1 with unlink := plan1.unlink ++ [d] }
    | none => plan1
  { st with plan := { plan2 with link := plan2.link ++ [dist] } }

/-- Lines 60-105, after URL resolution: everything `explicit` does for
one specification line given its resolved URL and optional checksum. -/
def specAction (env : ExpEnv) (st : ExpState) (url md5 : String) :
    ExpState × Option String :=
  let sp := rsplit1 url
  let url_p := sp.1
  let fn := channelTag env url_p url ++ sp.2
  let dist := pyDropRight fn 8
  let stale := stalePkgPath env dist md5
  let st1 := if stale.1 then rmStaleState st dist else st
  let ver := if stale.2.isNone then verifyIndex env st1 url_p fn dist md5 else (st1, none)
  match ver.2 with
  | some e => (ver.1, some e)
  | none => (finishSpec env ver.1 dist, none)

/-- One iteration of the loop of `explicit` (lines 48-105).  The second
component is `some msg` exactly when the line hits a `sys.exit` call;
the state accumulated up to that point is returned alongside, since
the Python mutations performed before the exit are not rolled back. -/
def processSpec (env : ExpEnv) (st : ExpState) (spec : String) :
    ExpState × Option String :=
  if spec = sentinel then (st, none)
  else
    let pr := pyPartitionMd5 spec
    if pyEndsWith pr.1 ".tar.bz2" = false then
      (st, some ("Error: Could not parse: " ++ pr.1))
    else
      match resolveUrl env pr.1 with
      | .error e => (st, some e)
      | .ok url => specAction env st url pr.2

/-- The plan-construction loop over all specification lines: stops at
the first fatal error, otherwise folds the whole list. -/
def explicitLoop (env : ExpEnv) : ExpState → List String → ExpState × Option String
  | st, [] => (st, none)
  | st, spec :: rest =>
    match processSpec env st spec with
    | (st', none) => explicitLoop env st' rest
    | (st', some e) => (st', some e)

/-- The initial state of `explicit` (lines 42-44): empty plan holding
the target directory and the fixed operation order. -/
def initState (pfx : String) : ExpState :=
  { plan := { prefixDir := pfx,
              op_order := [.RM_FETCHED, .FETCH, .RM_EXTRACTED, .EXTRACT, .UNLINK, .LINK],
              rm_fetched := [], fetch := [], rm_extracted := [], extract := [],
              unlink := [], link := [] },
    index := [], fetchCalls := [] }

/-- The fixed operation order installed at line 44. -/
def fixedOrder : List OpKind :=
  [.RM_FETCHED, .FETCH, .RM_EXTRACTED, .EXTRACT, .UNLINK, .LINK]

/-- The whole of `explicit` (lines 41-107) as a plan builder: returns
the final state and `none` exactly when the loop completed and line
107 submitted the plan to `execute_actions`; returns `some msg` when a
`sys.exit` aborted the call, in which case `execute_actions` is never
reached and no operation of the accumulated plan is executed. -/
def explicit (env : ExpEnv) (pfx : String) (specs : List String) :
    ExpState × Option String :=
  explicitLoop env (initState pfx) specs

/-- Strict precedence of operation kinds in an execution sequence:
every operation of kind `k₁` occurs at a strictly earlier position
than every operation of kind `k₂`. -/
def precedes (l : List (OpKind × String)) (k₁ k₂ : OpKind) : Prop :=
  ∀ i j (hi : i < l.length) (hj : j < l.length),
    (l.get ⟨i, hi⟩).1 = k₁ → (l.get ⟨j, hj⟩).1 = k₂ → i < j

/-- Invariant of the per-line loop used for the at-most-one-fetch
property: the trace of collection URLs passed to `fetch_index` has no
duplicates, and every filename of an already-fetched collection is
present in the index. -/
def fetchInv (env : ExpEnv) (st : ExpState) : Prop :=
  st.fetchCalls.Nodup ∧
  ∀ u ∈ st.fetchCalls, ∀ k ∈ (env.fetch_data u).map Prod.fst, alookup k st.index ≠ none

/-! Section: Concrete oracle environments used by witnesses and counterexamples -/

/-- A remote-URL specification line for the package `foo-1.0-0` of one
collection. -/
def specFoo : String := "http://c/ch/foo-1.0-0.tar.bz2"

/-- A remote-URL specification line for a package `bar-1.0-0` that the
same collection's index does not list. -/
def specBar : String := "http://c/ch/bar-1.0-0.tar.bz2"

/-- A concrete environment: one remote collection `http://c/ch/` whose
index lists only `foo-1.0-0.tar.bz2`; nothing cached, nothing
linked. -/
def envHttp : ExpEnv :=
  { is_url := fun s => pyStartsWith s "http"
    isfile := fun _ => true
    url_path := fun s => "file://" ++ s
    cached_url := fun _ => none
    url_channel := fun _ => "defaults"
    is_fetched := fun _ => none
    md5_file := fun _ => ""
    find_new_location := fun _ => none
    fetch_data := fun u =>
      if u = "http://c/ch/" then [("foo-1.0-0.tar.bz2", { md5 := some "aaa" })] else []
    linked := []
    name_dist := fun d => d }

/-- A concrete environment with a stale cached archive for `foo-1.0-0`:
the cached file's checksum is `bbb`, so a supplied checksum `aaa`
mismatches; the collection index lists the package with checksum
`aaa`. -/
def envStale : ExpEnv :=
  { envHttp with
    is_fetched := fun d => if d = "foo-1.0-0" then some "/cache/foo-1.0-0.tar.bz2" else none
    md5_file := fun _ => "bbb" }

/-- The specification line of `specFoo` carrying the checksum `aaa`. -/
def specFooMd5 : String := "http://c/ch/foo-1.0-0.tar.bz2:#aaa"

/-- A concrete environment where `foo-1.0-0` has a validly cached
archive, so an explicit install of `specFoo` builds a plan without
consulting any index. -/
def envCached : ExpEnv :=
  { envHttp with is_fetched := fun _ => some "/cache/pkg.tar.bz2" }

/-! Section: Data model of the file reconciliation engine
(`conda_installed_files`, lines 27-38, and `untracked`, lines 152-160)

The filesystem walk and the package database are oracle fields; file
sets are finite sets of relative path strings, as in the Python
code. -/

/-- The installed metadata record of one linked package, as consumed
here: its declared file list and whether it carries the
`file_hash` marker of a self-built package. -/
structure PkgMeta where
  files : List String
  file_hash : Bool

/-- Oracle environment for the reconciliation engine: the host
platform, the directory walk (`walk_prefix`) and the linked-package
database. -/
structure FsEnv where
  platform : String
  walk : String → Finset String
  linked_dists : String → List String
  is_linked : String → String → PkgMeta

/-- Lines 27-38: the union of the declared file lists of every package
linked into the given directory, skipping packages with a `file_hash`
marker when the exclusion flag is set. -/
def conda_installed_files (env : FsEnv) (pfx : String)
    (exclude_self_build : Bool := false) : Finset String :=
  (env.linked_dists pfx).foldl
    (fun res dist =>
      let meta := env.is_linked pfx dist
      if exclude_self_build ∧ meta.file_hash then res
      else res ∪ meta.files.toFinset) ∅

/-- Lines 152-160: the on-disk set minus the tracked set, further
dropping backup files (trailing `~`), macOS `.DS_Store` entries, and
compiled `.pyc` files whose source (the same path without the trailing
`c`) is itself tracked. -/
def untracked (env : FsEnv) (pfx : String)
    (exclude_self_build : Bool := false) : Finset String :=
  let conda_files := conda_installed_files env pfx exclude_self_build
  (env.walk pfx \ conda_files).filter (fun path =>
    ¬ (pyEndsWith path "~" = true ∨
       (env.platform = "darwin" ∧ pyEndsWith path ".DS_Store" = true) ∨
       (pyEndsWith path ".pyc" = true ∧ pyDropRight path 1 ∈ conda_files)))

/-! Section: `which_prefix` (lines 163-176) and `which_package` (lines 179-192)

Absolute paths are modelled as component lists written leaf first, so
`dirname` is `List.tail`, the filesystem root is `[]`, ancestors of a
path are exactly its suffixes, and `join(p, name)` is `name :: p`.
The `isdir` oracle answers the one directory query the code makes. -/

/-- The reserved environment-metadata subdirectory name. -/
def condaMeta : String := "conda-meta"

/-- Lines 163-176: ascend from the path towards the root, returning
the first directory whose `conda-meta` subdirectory exists, or `none`
once the root has been checked without a match. -/
def which_pfx (isdir : List String → Bool) : List String → Option (List String)
  | [] => if isdir [condaMeta] then some [] else none
  | d :: rest =>
    if isdir (condaMeta :: d :: rest) then some (d :: rest) else which_pfx isdir rest

/-- Oracle environment for `which_package`: the directory oracle plus
the linked-package database (declared files are relative paths, also
component lists written leaf first, so resolving one under a prefix is
list concatenation). -/
structure PkgEnv where
  isdir : List String → Bool
  linked_dists : List String → List String
  files_of : List String → String → List (List String)

/-- Lines 179-192: resolve the owning environment of the path (a
`RuntimeError` is raised when none is found), then keep exactly those
linked distributions one of whose declared files resolves to the
queried path.  The lazily yielded sequence is materialised as the list
of matches, in linked order. -/
def which_package (env : PkgEnv) (path : List String) :
    Except String (List String) :=
  match which_pfx env.isdir path with
  | none => .error "RuntimeError: could not determine conda prefix"
  | some pfx =>
    .ok ((env.linked_dists pfx).filter
      (fun dist => (env.files_of pfx dist).any (fun f => decide (f ++ pfx = path))))

/-! Section: `clone_env` untracked-file copying (lines 232-259)

A source entry is a symbolic link, a regular file, or an unreadable
file (the `IOError` case).  Regular-file content is either UTF-8
decodable text or opaque binary bytes — the two outcomes of
`data.decode('utf-8')`. -/

/-- The content of one regular file: the byte string either decodes as
UTF-8 text or is opaque binary. -/
inductive Content
  | text (s : String)
  | binary (b : List Nat)
deriving DecidableEq, Repr

/-- One untracked source entry as `clone_env` observes it. -/
inductive SrcEntry
  | symlinkTo (target : String)
  | file (c : Content)
  | unreadable
deriving DecidableEq, Repr

/-- One destination entry as `clone_env` creates it. -/
inductive DstEntry
  | symlinkTo (target : String)
  | file (c : Content)
deriving DecidableEq, Repr

/-- Left-to-right, non-overlapping replacement of `old` by `new`,
with explicit fuel: each step consumes at least one character, so fuel
equal to the list length computes the full replacement. -/
def replaceFuel (old new : List Char) : Nat → List Char → List Char
  | 0, l => l
  | _ + 1, [] => []
  | fuel + 1, c :: rest =>
    if old ≠ [] ∧ old.isPrefixOf (c :: rest) then
      new ++ replaceFuel old new fuel ((c :: rest).drop old.length)
    else c :: replaceFuel old new fuel rest

/-- Python `s.replace(old, new)` for nonempty `old`: every
non-overlapping occurrence of `old`, scanned left to right, is
replaced by `new`. -/
def pyReplace (s old new : String) : String :=
  ⟨replaceFuel old.data new.data s.data.length s.data⟩

/-- Lines 250-255: decodable content has every occurrence of the
source directory path replaced by the destination one and is
re-encoded; binary content is left byte-for-byte unchanged. -/
def cloneContent (pfx1 pfx2 : String) : Content → Content
  | .text s => .text (pyReplace s pfx1 pfx2)
  | .binary b => .binary b

/-- Lines 240-258 for one untracked entry: a symbolic link is
recreated with the identical target string, a regular file is copied
through `cloneContent`, and an unreadable file is skipped. -/
def cloneFile (pfx1 pfx2 : String) : SrcEntry → Option DstEntry
  | .symlinkTo t => some (.symlinkTo t)
  | .file c => some (.file (cloneContent pfx1 pfx2 c))
  | .unreadable => none

/-- The whole untracked-file loop of `clone_env` (lines 232-259),
mapping each source entry to the destination entry written for it (or
to nothing when the source is unreadable). -/
def clone_files (pfx1 pfx2 : String) (entries : List (String × SrcEntry)) :
    List (String × DstEntry) :=
  entries.filterMap (fun e => (cloneFile pfx1 pfx2 e.2).map (fun d => (e.1, d)))

/-! Section: Concrete instances for the remaining witnesses -/

/-- A directory oracle for a filesystem whose only `conda-meta` is
`/envs/myenv/conda-meta` (components leaf first). -/
def isdirW : List String → Bool :=
  fun l => decide (l = [condaMeta, "myenv", "envs"])

/-- The path `/envs/myenv/bin/python`, components leaf first. -/
def pathW : List String := ["python", "bin", "myenv", "envs"]

/-- A package environment over `isdirW`: the owning environment links
`foo-1.0-0`, whose declared file `bin/python` resolves to `pathW`, and
`bar-1.0-0`, whose declared file does not. -/
def envPkgW : PkgEnv :=
  { isdir := isdirW
    linked_dists := fun pfx =>
      if pfx = ["myenv", "envs"] then ["foo-1.0-0", "bar-1.0-0"] else []
    files_of := fun _ dist =>
      if dist = "foo-1.0-0" then [["python", "bin"]] else [["other", "bin"]] }

/-- Untracked entries of a source environment being cloned: a symbolic
link, a text file embedding the source directory path, and a binary
file. -/
def cloneEntriesW : List (String × SrcEntry) :=
  [("bin/tool", .symlinkTo "../lib/tool.sh"),
   ("bin/sh", .file (.text "#!/old/env/bin/python")),
   ("data.bin", .file (.binary [0, 137, 47, 111]))]

/-! Section: Theorems -/

theorem processSpec_badSuffix (env : ExpEnv) (st : ExpState) (spec : String)
    (h1 : spec ≠ sentinel)
    (h2 : pyEndsWith (pyPartitionMd5 spec).1 ".tar.bz2" = false) :
    (processSpec env st spec).2 =
      some ("Error: Could not parse: " ++ (pyPartitionMd5 spec).1) := by
  unfold processSpec
  rw [if_neg h1]
  rcases hp : pyPartitionMd5 spec with ⟨u, m⟩
  rw [hp] at h2
  simp [hp, h2]

theorem explicitLoop_err_of_bad (env : ExpEnv) (specs : List String) (spec : String)
    (hmem : spec ∈ specs) (h1 : spec ≠ sentinel)
    (h2 : pyEndsWith (pyPartitionMd5 spec).1 ".tar.bz2" = false) :
    ∀ st : ExpState, ((explicitLoop env st specs).2).isSome := by
  induction specs with
  | nil => cases hmem
  | cons a rest ih =>
    intro st
    rcases List.mem_cons.mp hmem with rfl | hmem'
    · have hbad := processSpec_badSuffix env st spec h1 h2
      rcases hps : processSpec env st spec with ⟨st', e⟩
      rw [hps] at hbad
      simp only at hbad
      subst hbad
      simp [explicitLoop, hps]
    · rcases hps : processSpec env st a with ⟨st', e⟩
      cases e with
      | none => simpa [explicitLoop, hps] using ih hmem' st'
      | some msg => simp [explicitLoop, hps]

/-- C1: if any non-sentinel specification line's location (the part
before the checksum delimiter) does not end in the fixed archive
suffix `.tar.bz2`, the explicit installer terminates fatally during
plan construction: the run's outcome carries an error message, so the
plan is never handed to `execute_actions` and no operation of the
batch — including operations accumulated for earlier well-formed
lines — is executed. -/
theorem explicit_bad_line_aborts (env : ExpEnv) (pfx : String)
    (specs : List String) (spec : String)
    (hmem : spec ∈ specs) (h1 : spec ≠ sentinel)
    (h2 : pyEndsWith (pyPartitionMd5 spec).1 ".tar.bz2" = false) :
    ((explicit env pfx specs).2).isSome :=
  explicitLoop_err_of_bad env specs spec hmem h1 h2 (initState pfx)

/-- Witness for C1 at a concrete input: a batch whose second line is a
well-formed remote specification and whose third line lacks the
archive suffix is aborted. -/
theorem explicit_bad_line_aborts_witness :
    ("pkgs/baz-1.0-0.zip" ∈ [sentinel, specFoo, "pkgs/baz-1.0-0.zip"]) ∧
    ("pkgs/baz-1.0-0.zip" ≠ sentinel) ∧
    (pyEndsWith (pyPartitionMd5 "pkgs/baz-1.0-0.zip").1 ".tar.bz2" = false) ∧
    ((explicit envHttp "/opt/env" [sentinel, specFoo, "pkgs/baz-1.0-0.zip"]).2).isSome :=
  ⟨by decide, by decide, by decide,
   explicit_bad_line_aborts envHttp "/opt/env" [sentinel, specFoo, "pkgs/baz-1.0-0.zip"]
     "pkgs/baz-1.0-0.zip" (by decide) (by decide) (by decide)⟩

theorem rmStaleState_plan_op_order (st : ExpState) (d : String) :
    (rmStaleState st d).plan.op_order = st.plan.op_order := rfl

theorem finishSpec_plan_op_order (env : ExpEnv) (st : ExpState) (d : String) :
    (finishSpec env st d).plan.op_order = st.plan.op_order := by
  unfold finishSpec
  dsimp only
  split <;> rfl

theorem verifyIndex_plan_op_order (env : ExpEnv) (st : ExpState)
    (url_p fn dist md5 : String) :
    ((verifyIndex env st url_p fn dist md5).1).plan.op_order = st.plan.op_order := by
  unfold verifyIndex
  dsimp only
  repeat' split
  all_goals rfl

theorem specAction_plan_op_order (env : ExpEnv) (st : ExpState) (url md5 : String) :
    ((specAction env st url md5).1).plan.op_order = st.plan.op_order := by
  unfold specAction
  dsimp only
  have hst1 : ∀ (b : Bool) (dist : String),
      (if b then rmStaleState st dist else st).plan.op_order = st.plan.op_order := by
    intro b dist; split <;> rfl
  split <;> rename_i heq
  · -- fatal branch of the index verification
    by_cases hc : (stalePkgPath env (pyDropRight (channelTag env (rsplit1 url).1 url ++ (rsplit1 url).2) 8) md5).2.isNone
    · simp only [hc, if_true] at heq ⊢
      rw [verifyIndex_plan_op_order, hst1]
    · simp only [hc] at heq ⊢
      rw [if_neg (by simp [hc]), hst1]
  · by_cases hc : (stalePkgPath env (pyDropRight (channelTag env (rsplit1 url).1 url ++ (rsplit1 url).2) 8) md5).2.isNone
    · simp only [hc, if_true] at heq ⊢
      rw [finishSpec_plan_op_order, verifyIndex_plan_op_order, hst1]
    · simp only [hc] at heq ⊢
      rw [if_neg (by simp [hc]), finishSpec_plan_op_order, hst1]

theorem processSpec_plan_op_order (env : ExpEnv) (st : ExpState) (spec : String) :
    ((processSpec env st spec).1).plan.op_order = st.plan.op_order := by
  unfold processSpec
  dsimp only
  split
  · rfl
  · split
    · rfl
    · split
      · rfl
      · rw [specAction_plan_op_order]

theorem explicitLoop_plan_op_order (env : ExpEnv) (specs : List String) :
    ∀ st : ExpState,
      ((explicitLoop env st specs).1).plan.op_order = st.plan.op_order := by
  induction specs with
  | nil => intro st; rfl
  | cons a rest ih =>
    intro st
    rcases hps : processSpec env st a with ⟨st', e⟩
    have hop : st'.plan.op_order = st.plan.op_order := by
      have := processSpec_plan_op_order env st a
      rw [hps] at this
      exact this
    cases e with
    | none => simp only [explicitLoop, hps]; rw [ih st', hop]
    | some msg => simp only [explicitLoop, hps]; exact hop

theorem precedes_append (xs ys : List (OpKind × String)) (k₁ k₂ : OpKind)
    (h1 : ∀ a ∈ ys, a.1 ≠ k₁) (h2 : ∀ a ∈ xs, a.1 ≠ k₂) :
    precedes (xs ++ ys) k₁ k₂ := by
  intro i j hi hj hik hjk
  rw [List.get_eq_getElem] at hik hjk
  have hilt : i < xs.length := by
    by_contra hge
    push_neg at hge
    rw [List.getElem_append_right hge] at hik
    exact h1 _ (List.getElem_mem _) hik
  have hjge : xs.length ≤ j := by
    by_contra hlt
    push_neg at hlt
    rw [List.getElem_append_left hlt] at hjk
    exact h2 _ (List.getElem_mem _) hjk
  omega

/-- In a plan carrying the fixed operation order, the execution
sequence places every removal of a cached archive before every fetch. -/
theorem fixedOrder_rm_fetched_before_fetch (p : Plan) (hord : p.op_order = fixedOrder) :
    precedes (appliedOps p) .RM_FETCHED .FETCH := by
  have hsplit : appliedOps p =
      (p.rm_fetched.map (fun d => (OpKind.RM_FETCHED, d))) ++
      ((p.fetch.map (fun d => (OpKind.FETCH, d))) ++
       ((p.rm_extracted.map (fun d => (OpKind.RM_EXTRACTED, d))) ++
        ((p.extract.map (fun d => (OpKind.EXTRACT, d))) ++
         ((p.unlink.map (fun d => (OpKind.UNLINK, d))) ++
          (p.link.map (fun d => (OpKind.LINK, d))))))) := by
    simp [appliedOps, hord, fixedOrder, opList]
  rw [hsplit]
  apply precedes_append
  · intro a ha
    simp only [List.mem_append, List.mem_map] at ha
    rcases ha with (⟨x, _, rfl⟩ | ⟨x, _, rfl⟩ | ⟨x, _, rfl⟩ | ⟨x, _, rfl⟩ | ⟨x, _, rfl⟩) <;> simp
  · intro a ha
    simp only [List.mem_map] at ha
    rcases ha with ⟨x, _, rfl⟩
    simp

/-- In a plan carrying the fixed operation order, the execution
sequence places every removal of an extracted copy before every
extraction. -/
theorem fixedOrder_rm_extracted_before_extract (p : Plan) (hord : p.op_order = fixedOrder) :
    precedes (appliedOps p) .RM_EXTRACTED .EXTRACT := by
  have hsplit : appliedOps p =
      ((p.rm_fetched.map (fun d => (OpKind.RM_FETCHED, d))) ++
       ((p.fetch.map (fun d => (OpKind.FETCH, d))) ++
        (p.rm_extracted.map (fun d => (OpKind.RM_EXTRACTED, d))))) ++
      ((p.extract.map (fun d => (OpKind.EXTRACT, d))) ++
       ((p.unlink.map (fun d => (OpKind.UNLINK, d))) ++
        (p.link.map (fun d => (OpKind.LINK, d))))) := by
    simp [appliedOps, hord, fixedOrder, opList]
  rw [hsplit]
  apply precedes_append
  · intro a ha
    simp only [List.mem_append, List.mem_map] at ha
    rcases ha with (⟨x, _, rfl⟩ | ⟨x, _, rfl⟩ | ⟨x, _, rfl⟩) <;> simp
  · intro a ha
    simp only [List.mem_append, List.mem_map] at ha
    rcases ha with (⟨x, _, rfl⟩ | ⟨x, _, rfl⟩ | ⟨x, _, rfl⟩) <;> simp

/-- In a plan carrying the fixed operation order, the execution
sequence places every unlink before every link. -/
theorem fixedOrder_unlink_before_link (p : Plan) (hord : p.op_order = fixedOrder) :
    precedes (appliedOps p) .UNLINK .LINK := by
  have hsplit : appliedOps p =
      ((p.rm_fetched.map (fun d => (OpKind.RM_FETCHED, d))) ++
       ((p.fetch.map (fun d => (OpKind.FETCH, d))) ++
        ((p.rm_extracted.map (fun d => (OpKind.RM_EXTRACTED, d))) ++
         ((p.extract.map (fun d => (OpKind.EXTRACT, d))) ++
          (p.unlink.map (fun d => (OpKind.UNLINK, d))))))) ++
      (p.link.map (fun d => (OpKind.LINK, d))) := by
    simp [appliedOps, hord, fixedOrder, opList]
  rw [hsplit]
  apply precedes_append
  · intro a ha
    simp only [List.mem_map] at ha
    rcases ha with ⟨x, _, rfl⟩
    simp
  · intro a ha
    simp only [List.mem_append, List.mem_map] at ha
    rcases ha with (⟨x, _, rfl⟩ | ⟨x, _, rfl⟩ | ⟨x, _, rfl⟩ | ⟨x, _, rfl⟩ | ⟨x, _, rfl⟩) <;> simp

/-- C2: every action plan the explicit installer hands to the executor
carries the fixed operation order remove-cached-archive, fetch,
remove-extracted-copy, extract, unlink, link; consequently, in the
plan's execution sequence every removal of a cached archive precedes
every fetch, every removal of an extracted copy precedes every
extraction, and every unlink precedes every link. -/
theorem explicit_plan_kind_order (env : ExpEnv) (pfx : String)
    (specs : List String) (st : ExpState)
    (h : explicit env pfx specs = (st, none)) :
    st.plan.op_order = fixedOrder ∧
    precedes (appliedOps st.plan) .RM_FETCHED .FETCH ∧
    precedes (appliedOps st.plan) .RM_EXTRACTED .EXTRACT ∧
    precedes (appliedOps st.plan) .UNLINK .LINK := by
  have hst : st = (explicitLoop env (initState pfx) specs).1 := by
    rw [show explicitLoop env (initState pfx) specs = (st, none) from h]
  have hord : st.plan.op_order = fixedOrder := by
    rw [hst, explicitLoop_plan_op_order]
    rfl
  exact ⟨hord, fixedOrder_rm_fetched_before_fetch _ hord,
         fixedOrder_rm_extracted_before_extract _ hord,
         fixedOrder_unlink_before_link _ hord⟩

/-- Witness for C2 at a concrete input: a successful one-line explicit
install produces a plan with the fixed operation order, whose unlinks
all precede its links. -/
theorem explicit_plan_kind_order_witness :
    (explicit envHttp "/opt/env" [specFoo]).2 = none ∧
    (explicit envHttp "/opt/env" [specFoo]).1.plan.op_order = fixedOrder ∧
    precedes (appliedOps (explicit envHttp "/opt/env" [specFoo]).1.plan) .UNLINK .LINK := by
  have h : explicit envHttp "/opt/env" [specFoo] =
      ((explicit envHttp "/opt/env" [specFoo]).1, none) := by decide
  have hc := explicit_plan_kind_order envHttp "/opt/env" [specFoo] _ h
  exact ⟨by decide, hc.1, hc.2.2.2⟩

theorem alookup_append_some {β : Type} (k : String) (xs ys : List (String × β))
    {v : β} (h : alookup k xs = some v) : alookup k (xs ++ ys) = some v := by
  induction xs with
  | nil => simp [alookup] at h
  | cons p rest ih =>
    rcases p with ⟨k', w⟩
    by_cases hk : k' = k
    · simp [alookup, hk] at h ⊢
      exact h
    · simp [alookup, hk] at h ⊢
      exact ih h

theorem alookup_append_none {β : Type} (k : String) (xs ys : List (String × β))
    (h : alookup k xs = none) : alookup k (xs ++ ys) = alookup k ys := by
  induction xs with
  | nil => rfl
  | cons p rest ih =>
    rcases p with ⟨k', w⟩
    by_cases hk : k' = k
    · simp [alookup, hk] at h
    · simp [alookup, hk] at h ⊢
      exact ih h

theorem alookup_eq_none_of_not_mem {β : Type} (k : String) (xs : List (String × β))
    (h : k ∉ xs.map Prod.fst) : alookup k xs = none := by
  induction xs with
  | nil => rfl
  | cons p rest ih =>
    rcases p with ⟨k', w⟩
    simp only [List.map_cons, List.mem_cons] at h
    push_neg at h
    simp only [alookup, if_neg (fun he : k' = k => h.1 he.symm)]
    exact ih h.2

theorem alookup_ne_none_of_mem {β : Type} (k : String) (xs : List (String × β))
    (h : k ∈ xs.map Prod.fst) : alookup k xs ≠ none := by
  induction xs with
  | nil => simp at h
  | cons p rest ih =>
    rcases p with ⟨k', w⟩
    by_cases hk : k' = k
    · simp [alookup, hk]
    · simp only [List.map_cons, List.mem_cons] at h
      rcases h with h | h
      · exact absurd h.symm hk
      · simp [alookup, hk]
        exact ih h

theorem mem_keys_of_alookup_some {β : Type} (k : String) (xs : List (String × β))
    {v : β} (h : alookup k xs = some v) : k ∈ xs.map Prod.fst := by
  by_contra hmem
  rw [alookup_eq_none_of_not_mem k xs hmem] at h
  cases h

theorem rmStaleState_index (st : ExpState) (d : String) :
    (rmStaleState st d).index = st.index := rfl

theorem rmStaleState_fetchCalls (st : ExpState) (d : String) :
    (rmStaleState st d).fetchCalls = st.fetchCalls := rfl

theorem finishSpec_index (env : ExpEnv) (st : ExpState) (d : String) :
    (finishSpec env st d).index = st.index := by
  unfold finishSpec
  dsimp only

theorem finishSpec_fetchCalls (env : ExpEnv) (st : ExpState) (d : String) :
    (finishSpec env st d).fetchCalls = st.fetchCalls := by
  unfold finishSpec
  dsimp only

theorem fetchInv_of_same (env : ExpEnv) (st st' : ExpState)
    (hInv : fetchInv env st)
    (hidx : st'.index = st.index) (hfc : st'.fetchCalls = st.fetchCalls) :
    fetchInv env st' := by
  unfold fetchInv at hInv ⊢
  rw [hidx, hfc]
  exact hInv

theorem verifyIndex_fetchInv (env : ExpEnv) (st : ExpState)
    (url_p fn dist md5 : String) (st' : ExpState)
    (hInv : fetchInv env st)
    (h : verifyIndex env st url_p fn dist md5 = (st', none)) :
    fetchInv env st' := by
  unfold verifyIndex at h
  dsimp only at h
  by_cases hfetch : alookup fn st.index = none
  · -- a fetch happens for this line's collection URL
    rw [if_pos hfetch, if_pos hfetch] at h
    -- the filename must be found after the merge, or the line exits
    rcases hl : alookup fn (env.fetch_data (url_p ++ "/") ++ st.index) with _ | info
    · rw [hl] at h
      simp at h
    · rw [hl] at h
      dsimp only at h
      -- the new URL cannot have been fetched before on this run
      have hnew : url_p ++ "/" ∉ st.fetchCalls := by
        intro hmem
        have hdata : alookup fn (env.fetch_data (url_p ++ "/")) = some info := by
          rcases hd : alookup fn (env.fetch_data (url_p ++ "/")) with _ | w
          · rw [alookup_append_none fn _ _ hd, hfetch] at hl
            cases hl
          · rw [alookup_append_some fn _ st.index hd] at hl
            injection hl with hw
            rw [hw]
        have hkey := mem_keys_of_alookup_some fn _ hdata
        exact (hInv.2 (url_p ++ "/") hmem fn hkey) hfetch
      rcases hInv with ⟨hnd, hidxinv⟩
      rcases hfatal : md5Fatal md5 info with _ | _
      · -- non-fatal checksum outcome: the success state
        rw [hfatal] at h
        simp only [Bool.false_eq_true, if_false] at h
        injection h with hst _
        subst hst
        constructor
        · simp only
          rw [List.nodup_append]
          refine ⟨hnd, List.nodup_singleton _, ?_⟩
          intro x hx hx'
          simp only [List.mem_singleton] at hx'
          subst hx'
          exact hnew hx
        · intro u hu k hk
          simp only [List.mem_append, List.mem_singleton] at hu
          rcases hu with hu | rfl
          · have hold := hidxinv u hu k hk
            simp only
            rcases hd : alookup k (env.fetch_data (url_p ++ "/")) with _ | w
            · rw [alookup_append_none k _ _ hd]
              exact hold
            · rw [alookup_append_some k _ _ hd]
              simp
          · simp only
            have hne := alookup_ne_none_of_mem k _ hk
            rcases hd : alookup k (env.fetch_data (url_p ++ "/")) with _ | w
            · exact absurd hd hne
            · rw [alookup_append_some k _ _ hd]
              simp
      · -- fatal checksum mismatch: contradicts success
        rw [hfatal] at h
        simp at h
  · -- no fetch: index and trace unchanged
    rw [if_neg hfetch, if_neg hfetch] at h
    rcases hl : alookup fn st.index with _ | info
    · exact absurd hl hfetch
    · rw [hl] at h
      dsimp only at h
      rcases hfatal : md5Fatal md5 info with _ | _
      · rw [hfatal] at h
        simp only [Bool.false_eq_true, if_false] at h
        injection h with hst _
        subst hst
        exact ⟨hInv.1, fun u hu k hk => hInv.2 u hu k hk⟩
      · rw [hfatal] at h
        simp at h

theorem fetchInv_rmStale_if (env : ExpEnv) (st : ExpState) (b : Bool) (d : String)
    (hInv : fetchInv env st) :
    fetchInv env (if b then rmStaleState st d else st) := by
  cases b
  · exact hInv
  · exact fetchInv_of_same env st _ hInv (rmStaleState_index st d) (rmStaleState_fetchCalls st d)

theorem specAction_fetchInv (env : ExpEnv) (st : ExpState) (url md5 : String)
    (st' : ExpState) (hInv : fetchInv env st)
    (h : specAction env st url md5 = (st', none)) : fetchInv env st' := by
  unfold specAction at h
  dsimp only at h
  have hInv1 : fetchInv env
      (if (stalePkgPath env (pyDropRight (channelTag env (rsplit1 url).1 url ++ (rsplit1 url).2) 8) md5).1
       then rmStaleState st (pyDropRight (channelTag env (rsplit1 url).1 url ++ (rsplit1 url).2) 8)
       else st) :=
    fetchInv_rmStale_if env st _ _ hInv
  by_cases hc : (stalePkgPath env (pyDropRight (channelTag env (rsplit1 url).1 url ++ (rsplit1 url).2) 8) md5).2.isNone = true
  · rw [if_pos hc] at h
    rcases hv : verifyIndex env
        (if (stalePkgPath env (pyDropRight (channelTag env (rsplit1 url).1 url ++ (rsplit1 url).2) 8) md5).1
         then rmStaleState st (pyDropRight (channelTag env (rsplit1 url).1 url ++ (rsplit1 url).2) 8)
         else st)
        (rsplit1 url).1 (channelTag env (rsplit1 url).1 url ++ (rsplit1 url).2)
        (pyDropRight (channelTag env (rsplit1 url).1 url ++ (rsplit1 url).2) 8) md5 with ⟨stv, ev⟩
    rw [hv] at h
    dsimp only at h
    cases ev with
    | some e => simp at h
    | none =>
      injection h with hst _
      subst hst
      have hv' := verifyIndex_fetchInv env _ _ _ _ _ _ hInv1 hv
      exact fetchInv_of_same env stv _ hv' (finishSpec_index env stv _) (finishSpec_fetchCalls env stv _)
  · rw [if_neg hc] at h
    dsimp only at h
    injection h with hst _
    subst hst
    exact fetchInv_of_same env _ _ hInv1 (finishSpec_index env _ _) (finishSpec_fetchCalls env _ _)

theorem processSpec_fetchInv (env : ExpEnv) (st : ExpState) (spec : String)
    (st' : ExpState) (hInv : fetchInv env st)
    (h : processSpec env st spec = (st', none)) : fetchInv env st' := by
  unfold processSpec at h
  dsimp only at h
  by_cases hs : spec = sentinel
  · rw [if_pos hs] at h
    injection h with hst _
    subst hst
    exact hInv
  · rw [if_neg hs] at h
    by_cases hsuf : pyEndsWith (pyPartitionMd5 spec).1 ".tar.bz2" = false
    · rw [if_pos hsuf] at h
      simp at h
    · rw [if_neg hsuf] at h
      rcases hres : resolveUrl env (pyPartitionMd5 spec).1 with e | url
      · rw [hres] at h
        simp at h
      · rw [hres] at h
        dsimp only at h
        exact specAction_fetchInv env st url _ st' hInv h

theorem explicitLoop_fetchInv (env : ExpEnv) (specs : List String) :
    ∀ st st' : ExpState, fetchInv env st →
      explicitLoop env st specs = (st', none) → fetchInv env st' := by
  induction specs with
  | nil =>
    intro st st' hInv h
    injection h with hst _
    subst hst
    exact hInv
  | cons a rest ih =>
    intro st st' hInv h
    rcases hps : processSpec env st a with ⟨stm, e⟩
    cases e with
    | none =>
      rw [explicitLoop, hps] at h
      exact ih stm st' (processSpec_fetchInv env st a stm hInv hps) h
    | some msg =>
      rw [explicitLoop, hps] at h
      simp at h

theorem initState_fetchInv (env : ExpEnv) (pfx : String) :
    fetchInv env (initState pfx) := by
  constructor
  · exact List.nodup_nil
  · intro u hu
    cases hu

/-- C5 (amended): within one run of the explicit installer that
completes without a fatal error, the channel-index fetch for each
distinct parent-collection URL is performed at most once, however many
specification lines reference packages of that collection.  (The
original claim, without the restriction to fatal-error-free runs, is
refuted by the counterexample theorem: a line whose filename is absent
from the already-fetched index data re-fetches the same collection URL
immediately before the run aborts.) -/
theorem explicit_fetch_at_most_once (env : ExpEnv) (pfx : String)
    (specs : List String) (st : ExpState)
    (h : explicit env pfx specs = (st, none)) :
    ∀ u : String, st.fetchCalls.count u ≤ 1 := by
  have hInv : fetchInv env st :=
    explicitLoop_fetchInv env specs (initState pfx) st (initState_fetchInv env pfx) h
  intro u
  exact List.nodup_iff_count_le_one.mp hInv.1 u

/-- Witness for the amended C5 at a concrete input: a successful
one-line run fetches its collection index exactly once. -/
theorem explicit_fetch_at_most_once_witness :
    (explicit envHttp "/opt/env" [specFoo]).2 = none ∧
    (explicit envHttp "/opt/env" [specFoo]).1.fetchCalls.count "http://c/ch/" ≤ 1 := by
  have h : explicit envHttp "/opt/env" [specFoo] =
      ((explicit envHttp "/opt/env" [specFoo]).1, none) := by decide
  exact ⟨by decide,
    explicit_fetch_at_most_once envHttp "/opt/env" [specFoo] _ h "http://c/ch/"⟩

/-- C5 counterexample: in the run over the two lines `specFoo` and
`specBar` of the same collection `http://c/ch/` — whose index lists
only `foo` — the installer calls `fetch_index` twice for that one
collection URL: once for the first line and again for the second line
(whose filename is absent from the already-fetched index data), so the
fetch is not performed at most once per distinct collection URL. -/
theorem explicit_fetch_twice_cex :
    (explicit envHttp "/opt/env" [specFoo, specBar]).1.fetchCalls =
      ["http://c/ch/", "http://c/ch/"] ∧
    ¬ ((explicit envHttp "/opt/env" [specFoo, specBar]).1.fetchCalls.count
        "http://c/ch/" ≤ 1) := by
  exact ⟨by decide, by decide⟩

theorem finishSpec_rm_fetched (env : ExpEnv) (st : ExpState) (d : String) :
    (finishSpec env st d).plan.rm_fetched = st.plan.rm_fetched := by
  unfold finishSpec
  dsimp only
  split <;> rfl

theorem finishSpec_fetch (env : ExpEnv) (st : ExpState) (d : String) :
    (finishSpec env st d).plan.fetch = st.plan.fetch := by
  unfold finishSpec
  dsimp only
  split <;> rfl

theorem verifyIndex_ok (env : ExpEnv) (st : ExpState)
    (url_p fn dist md5 : String) (st' : ExpState)
    (h : verifyIndex env st url_p fn dist md5 = (st', none)) :
    st'.plan.rm_fetched = st.plan.rm_fetched ++ conflictAdds env dist ∧
    st'.plan.fetch = st.plan.fetch ++ [dist] := by
  unfold verifyIndex at h
  dsimp only at h
  by_cases hfetch : alookup fn st.index = none
  · rw [if_pos hfetch, if_pos hfetch] at h
    rcases hl : alookup fn (env.fetch_data (url_p ++ "/") ++ st.index) with _ | info
    · rw [hl] at h
      simp at h
    · rw [hl] at h
      dsimp only at h
      rcases hfatal : md5Fatal md5 info with _ | _
      · rw [hfatal] at h
        simp only [Bool.false_eq_true, if_false] at h
        injection h with hst _
        subst hst
        exact ⟨rfl, rfl⟩
      · rw [hfatal] at h
        simp at h
  · rw [if_neg hfetch, if_neg hfetch] at h
    rcases hl : alookup fn st.index with _ | info
    · exact absurd hl hfetch
    · rw [hl] at h
      dsimp only at h
      rcases hfatal : md5Fatal md5 info with _ | _
      · rw [hfatal] at h
        simp only [Bool.false_eq_true, if_false] at h
        injection h with hst _
        subst hst
        exact ⟨rfl, rfl⟩
      · rw [hfatal] at h
        simp at h

/-- C4: for a specification line whose distribution has a validly
cached archive (a truthy `is_fetched` path) and whose supplied
checksum mismatches the cached file's checksum, the installer
schedules removal of the stale cached archive (the distribution is
appended to the remove-cached-archive list) and treats the archive as
not fetched: provided the subsequent index verification succeeds, a
fetch of the same distribution is scheduled, and the line completes
without terminating the operation. -/
theorem explicit_stale_md5_refetch (env : ExpEnv) (st : ExpState)
    (spec url0 md5 url url_p fn0 fn dist p : String) (st₂ : ExpState)
    (hs : spec ≠ sentinel)
    (hpart : pyPartitionMd5 spec = (url0, md5))
    (hsuf : pyEndsWith url0 ".tar.bz2" = true)
    (hres : resolveUrl env url0 = .ok url)
    (hsplit : rsplit1 url = (url_p, fn0))
    (hfn : channelTag env url_p url ++ fn0 = fn)
    (hdist : pyDropRight fn 8 = dist)
    (hfetched : env.is_fetched dist = some p)
    (hp : p ≠ "") (hmd5 : md5 ≠ "")
    (hmm : env.md5_file p ≠ md5)
    (hver : verifyIndex env (rmStaleState st dist) url_p fn dist md5 = (st₂, none)) :
    ∃ stF : ExpState, processSpec env st spec = (stF, none) ∧
      stF.plan.rm_fetched = st.plan.rm_fetched ++ [dist] ++ conflictAdds env dist ∧
      stF.plan.fetch = st.plan.fetch ++ [dist] := by
  have hstale : stalePkgPath env dist md5 = (true, none) := by
    unfold stalePkgPath
    rw [hfetched]
    dsimp only
    rw [if_pos ⟨hp, hmd5, hmm⟩]
  have hproc : processSpec env st spec = (finishSpec env st₂ dist, none) := by
    unfold processSpec
    dsimp only
    rw [if_neg hs, hpart]
    dsimp only
    rw [if_neg (by rw [hsuf]; exact fun hc => Bool.true_eq_false.mp hc), hres]
    dsimp only
    unfold specAction
    dsimp only
    rw [hsplit]
    dsimp only
    rw [hfn, hdist, hstale]
    dsimp only
    simp [hver]
  refine ⟨finishSpec env st₂ dist, hproc, ?_, ?_⟩
  · rw [finishSpec_rm_fetched]
    have := (verifyIndex_ok env (rmStaleState st dist) url_p fn dist md5 st₂ hver).1
    rw [this]
    rfl
  · rw [finishSpec_fetch]
    exact (verifyIndex_ok env (rmStaleState st dist) url_p fn dist md5 st₂ hver).2

/-- Witness for C4 at a concrete input: the line
`http://c/ch/foo-1.0-0.tar.bz2:#aaa` over an environment whose cached
archive for `foo-1.0-0` hashes to `bbb` completes without an error,
removing the stale archive and re-fetching the distribution. -/
theorem explicit_stale_md5_refetch_witness :
    ∃ stF : ExpState,
      processSpec envStale (initState "/opt/env") specFooMd5 = (stF, none) ∧
      stF.plan.rm_fetched =
        (initState "/opt/env").plan.rm_fetched ++ ["foo-1.0-0"] ++
          conflictAdds envStale "foo-1.0-0" ∧
      stF.plan.fetch = (initState "/opt/env").plan.fetch ++ ["foo-1.0-0"] :=
  explicit_stale_md5_refetch envStale (initState "/opt/env") specFooMd5
    "http://c/ch/foo-1.0-0.tar.bz2" "aaa" "http://c/ch/foo-1.0-0.tar.bz2"
    "http://c/ch" "foo-1.0-0.tar.bz2" "foo-1.0-0.tar.bz2" "foo-1.0-0"
    "/cache/foo-1.0-0.tar.bz2"
    ((verifyIndex envStale (rmStaleState (initState "/opt/env") "foo-1.0-0")
        "http://c/ch" "foo-1.0-0.tar.bz2" "foo-1.0-0" "aaa").1)
    (by decide) (by rfl) (by rfl) (by rfl) (by rfl) (by rfl)
    (by rfl) (by rfl) (by decide) (by decide) (by decide) (by rfl)

/-- C3: for every prefix, `untracked` is exactly the on-disk set
(the walk) minus the tracked set (the union of installed packages'
declared files), further excluding paths ending in the backup suffix,
macOS `.DS_Store` entries, and `.pyc` paths whose source path is
itself tracked; in particular `untracked` is disjoint from the tracked
set. -/
theorem untracked_spec (env : FsEnv) (pfx : String) (ex : Bool) :
    (∀ path : String,
      path ∈ untracked env pfx ex ↔
        (path ∈ env.walk pfx ∧ path ∉ conda_installed_files env pfx ex ∧
         ¬ pyEndsWith path "~" = true ∧
         ¬ (env.platform = "darwin" ∧ pyEndsWith path ".DS_Store" = true) ∧
         ¬ (pyEndsWith path ".pyc" = true ∧
             pyDropRight path 1 ∈ conda_installed_files env pfx ex))) ∧
    Disjoint (untracked env pfx ex) (conda_installed_files env pfx ex) := by
  constructor
  · intro path
    unfold untracked
    simp only [Finset.mem_filter, Finset.mem_sdiff]
    tauto
  · rw [Finset.disjoint_left]
    intro a ha
    unfold untracked at ha
    simp only [Finset.mem_filter, Finset.mem_sdiff] at ha
    exact ha.1.2

/-- C8: the environment lookup returns the nearest ancestor (itself
included) of the queried path containing the `conda-meta` marker —
the returned directory is an ancestor with the marker, and every
ancestor with the marker is at or below it — and returns `none`
exactly when no ancestor up to the filesystem root carries the
marker. -/
theorem which_pfx_spec (isdir : List String → Bool) (p : List String) :
    (∀ q, which_pfx isdir p = some q →
       q <:+ p ∧ isdir (condaMeta :: q) = true ∧
       ∀ r, r <:+ p → isdir (condaMeta :: r) = true → r <:+ q) ∧
    (which_pfx isdir p = none →
       ∀ r, r <:+ p → isdir (condaMeta :: r) = false) := by
  induction p with
  | nil =>
    constructor
    · intro q hq
      unfold which_pfx at hq
      by_cases h : isdir [condaMeta] = true
      · rw [if_pos h] at hq
        injection hq with hq
        subst hq
        refine ⟨List.suffix_rfl, h, ?_⟩
        intro r hr _
        rw [List.suffix_nil] at hr
        subst hr
        exact List.suffix_rfl
      · rw [if_neg h] at hq
        cases hq
    · intro hq r hr
      unfold which_pfx at hq
      by_cases h : isdir [condaMeta] = true
      · rw [if_pos h] at hq
        cases hq
      · rw [List.suffix_nil] at hr
        subst hr
        exact Bool.not_eq_true _ |>.mp h
  | cons d rest ih =>
    constructor
    · intro q hq
      unfold which_pfx at hq
      by_cases h : isdir (condaMeta :: d :: rest) = true
      · rw [if_pos h] at hq
        injection hq with hq
        subst hq
        exact ⟨List.suffix_rfl, h, fun r hr _ => hr⟩
      · rw [if_neg h] at hq
        obtain ⟨hsuf, hmeta, hmax⟩ := ih.1 q hq
        refine ⟨hsuf.trans (List.suffix_cons d rest), hmeta, ?_⟩
        intro r hr hrmeta
        rcases List.suffix_cons_iff.mp hr with rfl | hr'
        · exact absurd hrmeta h
        · exact hmax r hr' hrmeta
    · intro hq r hr
      unfold which_pfx at hq
      by_cases h : isdir (condaMeta :: d :: rest) = true
      · rw [if_pos h] at hq
        cases hq
      · rw [if_neg h] at hq
        rcases List.suffix_cons_iff.mp hr with rfl | hr'
        · exact Bool.not_eq_true _ |>.mp h
        · exact ih.2 hq r hr'

/-- Witness for C8 at a concrete input: querying
`/envs/myenv/bin/python` where only `/envs/myenv/conda-meta` exists
returns `/envs/myenv`, an ancestor of the path carrying the marker. -/
theorem which_pfx_spec_witness :
    which_pfx isdirW pathW = some ["myenv", "envs"] ∧
    (["myenv", "envs"] : List String) <:+ pathW ∧
    isdirW (condaMeta :: ["myenv", "envs"]) = true := by
  have h := (which_pfx_spec isdirW pathW).1 ["myenv", "envs"] (by rfl)
  exact ⟨by rfl, h.1, h.2.1⟩

/-- C10: the environment lookup tests the queried path itself before
ascending: a path that itself contains the `conda-meta` marker is
returned unchanged. -/
theorem which_pfx_self (isdir : List String → Bool) (p : List String)
    (h : isdir (condaMeta :: p) = true) : which_pfx isdir p = some p := by
  cases p with
  | nil =>
    unfold which_pfx
    rw [if_pos h]
  | cons d rest =>
    unfold which_pfx
    rw [if_pos h]

/-- Witness for C10 at a concrete input: querying the environment root
`/envs/myenv` itself returns that root. -/
theorem which_pfx_self_witness :
    isdirW (condaMeta :: ["myenv", "envs"]) = true ∧
    which_pfx isdirW ["myenv", "envs"] = some ["myenv", "envs"] :=
  ⟨by decide, which_pfx_self isdirW ["myenv", "envs"] (by decide)⟩

/-- C9: the package lookup returns a library-level error exactly when
no owning environment is found; otherwise it returns the list of
precisely those linked distributions of the owning environment one of
whose declared files, resolved under that environment, equals the
queried path — zero, one, or several matches, none of which is an
error. -/
theorem which_package_spec (env : PkgEnv) (path : List String) :
    ((∃ msg, which_package env path = .error msg) ↔
      which_pfx env.isdir path = none) ∧
    (∀ pfx, which_pfx env.isdir path = some pfx →
      ∃ l, which_package env path = .ok l ∧
        ∀ dist, dist ∈ l ↔ dist ∈ env.linked_dists pfx ∧
          ∃ f ∈ env.files_of pfx dist, f ++ pfx = path) := by
  constructor
  · constructor
    · rintro ⟨msg, hmsg⟩
      unfold which_package at hmsg
      rcases hw : which_pfx env.isdir path with _ | pfx
      · rfl
      · rw [hw] at hmsg
        cases hmsg
    · intro hw
      refine ⟨"RuntimeError: could not determine conda prefix", ?_⟩
      unfold which_package
      rw [hw]
  · intro pfx hw
    refine ⟨_, by unfold which_package; rw [hw], ?_⟩
    intro dist
    rw [List.mem_filter]
    constructor
    · rintro ⟨hmem, hany⟩
      rw [List.any_eq_true] at hany
      obtain ⟨f, hf, hfeq⟩ := hany
      exact ⟨hmem, f, hf, of_decide_eq_true hfeq⟩
    · rintro ⟨hmem, f, hf, hfeq⟩
      refine ⟨hmem, ?_⟩
      rw [List.any_eq_true]
      exact ⟨f, hf, decide_eq_true hfeq⟩

/-- Witness for C9 at a concrete input: querying
`/envs/myenv/bin/python` yields exactly the one distribution
`foo-1.0-0` whose declared file `bin/python` resolves to the path, and
no error. -/
theorem which_package_spec_witness :
    which_package envPkgW pathW = .ok ["foo-1.0-0"] ∧
    ("foo-1.0-0" ∈ envPkgW.linked_dists ["myenv", "envs"] ∧
      ∃ f ∈ envPkgW.files_of ["myenv", "envs"] "foo-1.0-0",
        f ++ ["myenv", "envs"] = pathW) := by
  obtain ⟨l, hok, hmem⟩ :=
    (which_package_spec envPkgW pathW).2 ["myenv", "envs"] (by rfl)
  have hl : l = ["foo-1.0-0"] := by
    have h2 : (Except.ok l : Except String (List String)) = Except.ok ["foo-1.0-0"] := by
      rw [← hok]
      rfl
    injection h2
  subst hl
  exact ⟨hok, (hmem "foo-1.0-0").mp (by decide)⟩

/-- C6: during cloning, every untracked regular source file whose
content decodes as UTF-8 text is written to the destination with every
occurrence of the source directory path replaced by the destination
one, and every regular source file whose content does not decode is
written byte-for-byte unchanged. -/
theorem clone_env_rewrites_text (pfx1 pfx2 : String)
    (entries : List (String × SrcEntry)) (f : String) (c : Content)
    (hmem : (f, SrcEntry.file c) ∈ entries) :
    ∃ d : Content, (f, DstEntry.file d) ∈ clone_files pfx1 pfx2 entries ∧
      (∀ s, c = .text s → d = .text (pyReplace s pfx1 pfx2)) ∧
      (∀ b, c = .binary b → d = .binary b) := by
  refine ⟨cloneContent pfx1 pfx2 c, ?_, ?_, ?_⟩
  · unfold clone_files
    rw [List.mem_filterMap]
    exact ⟨(f, SrcEntry.file c), hmem, rfl⟩
  · intro s hs
    subst hs
    rfl
  · intro b hb
    subst hb
    rfl

/-- Witness for C6 at a concrete input: the text file
`#!/old/env/bin/python` is written with its embedded source path
rewritten to the destination path. -/
theorem clone_env_rewrites_text_witness :
    ("bin/sh",
      DstEntry.file (.text (pyReplace "#!/old/env/bin/python" "/old/env" "/new/env")))
      ∈ clone_files "/old/env" "/new/env" cloneEntriesW := by
  obtain ⟨d, hd, ht, _⟩ :=
    clone_env_rewrites_text "/old/env" "/new/env" cloneEntriesW "bin/sh"
      (.text "#!/old/env/bin/python") (by decide)
  exact (ht _ rfl) ▸ hd

/-- C7: during cloning, every untracked source entry that is a
symbolic link is recreated at the destination as a symbolic link whose
target string is identical — no content copy and no path rewriting is
applied to it. -/
theorem clone_env_symlink (pfx1 pfx2 : String)
    (entries : List (String × SrcEntry)) (f t : String)
    (hmem : (f, SrcEntry.symlinkTo t) ∈ entries) :
    (f, DstEntry.symlinkTo t) ∈ clone_files pfx1 pfx2 entries := by
  unfold clone_files
  rw [List.mem_filterMap]
  exact ⟨(f, SrcEntry.symlinkTo t), hmem, rfl⟩

/-- Witness for C7 at a concrete input: the symbolic link
`bin/tool -> ../lib/tool.sh` is recreated with the identical target
string. -/
theorem clone_env_symlink_witness :
    ("bin/tool", DstEntry.symlinkTo "../lib/tool.sh")
      ∈ clone_files "/old/env" "/new/env" cloneEntriesW :=
  clone_env_symlink "/old/env" "/new/env" cloneEntriesW "bin/tool" "../lib/tool.sh"
    (by decide)

end CondaMisc
